import Mathlib

/-!
# Verification of `webserv.py` (en6ineer/mediaWebServ)

A shallow embedding of the core of the single-file FastAPI media server:

* `normalize_root_and_rel` — sandboxed path resolution (`webserv.py` lines 68-77);
* `api_list` sorting (lines 110-121);
* `api_thumb` — thumbnail generation and in-memory cache (lines 124-176);
* `iter_file_range` — lazy byte-range streaming (lines 179-191);
* `media` — the HTTP Range handler (lines 194-225).

Filesystem contents and external collaborators (Pillow, ffmpeg, libmagic)
enter the model as explicit oracle parameters; paths are modelled
lexically (no symlinks) as lists of segments.

String helpers (splitting, prefix test, lower-casing, integer parsing)
are implemented over `List Char` by structural recursion so that every
definition evaluates inside the kernel; they agree with the Python
operations they stand for on the inputs that occur here.
-/

namespace Webserv

/-! ## String helpers -/

/-- Accumulator step for splitting a character list at a separator. -/
def splitCharAux (sep : Char) (acc : List Char) : List Char → List (List Char)
  | [] => [acc.reverse]
  | c :: cs =>
    if c = sep then acc.reverse :: splitCharAux sep [] cs
    else splitCharAux sep (c :: acc) cs

/-- Python `s.split(sep)` for a single-character separator (also the
behaviour of `str.split('=')` / `str.split('-')` in `media`). -/
def splitStr (sep : Char) (s : String) : List String :=
  (splitCharAux sep [] s.data).map String.mk

/-- Python `a.startswith(b)` / `str.startswith`: string prefix test. -/
def strStartsWith (b a : String) : Bool :=
  a.data.isPrefixOf b.data

/-- Python `s.lower()` (ASCII case folding suffices for the model). -/
def strLower (s : String) : String :=
  String.mk (s.data.map Char.toLower)

/-- Value of a decimal digit character. -/
def digitVal? (c : Char) : Option Nat :=
  if '0' ≤ c ∧ c ≤ '9' then some (c.toNat - '0'.toNat) else none

/-- Decimal reading of a non-empty digit string. -/
def parseNatChars (cs : List Char) : Option Nat :=
  if cs.isEmpty then none
  else cs.foldl (fun acc c =>
    match acc, digitVal? c with
    | some n, some d => some (n * 10 + d)
    | _, _ => none) (some 0)

/-- Python `int(s)` modelled for plain optionally-signed decimal
literals (the forms produced by Range-header splitting); any other
string raises, modelled as `none`. -/
def pyInt? (s : String) : Option Int :=
  match s.data with
  | '-' :: rest => (parseNatChars rest).map (fun n => -(n : Int))
  | '+' :: rest => (parseNatChars rest).map (fun n => (n : Int))
  | cs => (parseNatChars cs).map (fun n => (n : Int))

/-- Lexicographic comparison of character lists by code point — the
ordering Python uses to compare `str` values in `list.sort(key=...)`. -/
def lexLe : List Char → List Char → Bool
  | [], _ => true
  | _ :: _, [] => false
  | a :: as, b :: bs => if a < b then true else if b < a then false else lexLe as bs

/-! ## Errors

The handlers signal errors by raising `HTTPException`; the distinct
`(status, detail)` pairs used by the core are modelled as an error kind. -/

inductive HErr where
  /-- 400 "invalid root index" -/
  | invalidRoot
  /-- 400 "path outside root" -/
  | pathEscape
  /-- 404 "not found" -/
  | notFound
  /-- 400 "not a directory" -/
  | notADirectory
deriving DecidableEq, Repr

/-! ## Lexical path model

An absolute POSIX path is a list of non-empty segments (`/a/b/c` is
`["a","b","c"]`, `/` is `[]`).  `Path.resolve()` is modelled lexically:
`.` segments vanish, `..` pops the previous segment (and is a no-op at
the filesystem root), which is exactly `resolve`'s behaviour in the
absence of symlinks. -/

/-- Split a POSIX path string into segments, discarding empty segments
(produced by the leading `/`, duplicate slashes, or a trailing slash). -/
def splitPath (s : String) : List String :=
  (splitStr '/' s).filter (fun seg => seg ≠ "")

/-- One step of lexical canonicalization: process the next raw segment
against the stack of already-canonical segments (kept reversed). -/
def normStep (acc : List String) (seg : String) : List String :=
  if seg = "." then acc
  else if seg = ".." then acc.drop 1
  else seg :: acc

/-- Lexical `Path.resolve()` on a segment list (symlink-free model):
eliminates `.` and `..`. -/
def resolvePath (segs : List String) : List String :=
  (segs.foldl normStep []).reverse

/-- `str(p)` for an absolute `Path` given by its canonical segments. -/
def renderPath (segs : List String) : String :=
  "/" ++ String.intercalate "/" segs

/-- `pathlib`'s `root / rel`: if `rel` is absolute it replaces the root
entirely, otherwise the segments are appended. -/
def pyJoin (rootSegs : List String) (rel : String) : List String :=
  if strStartsWith rel "/" then splitPath rel else rootSegs ++ splitPath rel

/-- Python list indexing `l[i]` as used by `ROOT_DIRS[root_index]`:
negative indices address the list from the end; `none` models the
`IndexError` for out-of-range indices. -/
def pyIndex (l : List String) (i : Int) : Option String :=
  if 0 ≤ i then l.get? i.toNat
  else
    let j : Int := (l.length : Int) + i
    if 0 ≤ j then l.get? j.toNat else none

/-- `normalize_root_and_rel(root_index, rel_path)` (`webserv.py` 68-77):
index into `ROOT_DIRS` (any exception → `invalidRoot`), join and resolve
the candidate, and reject with `pathEscape` unless
`str(candidate).startswith(str(root.resolve()))`.  Returns the resolved
candidate's segments. -/
def normalize_root_and_rel (roots : List String) (root_index : Int) (rel_path : String) :
    Except HErr (List String) :=
  match pyIndex roots root_index with
  | none => .error .invalidRoot
  | some rootStr =>
    let root := splitPath rootStr
    let candidate := resolvePath (pyJoin root rel_path)
    if strStartsWith (renderPath candidate) (renderPath (resolvePath root)) then
      .ok candidate
    else .error .pathEscape

/-- Modelled from the spec: the directory-boundary containment test the
spec requires of `PathResolver.resolve` — the canonicalized candidate
lies in the canonicalized root's directory subtree, i.e. the root's
segment list is a prefix of the candidate's segment list (so `/root2`
is *not* inside `/root`). -/
def inRootSubtree (rootSegs candSegs : List String) : Bool :=
  rootSegs.isPrefixOf candSegs

/-! ## Directory listing (`api_list`, lines 110-121)

`list_dir` builds one dict per child; `api_list` then sorts the list in
place.  Only the sorting step matters for the ordering claims, so the
entry record and the sort are embedded; `list.sort` is Python's stable
sort, modelled by `List.mergeSort` (also stable). -/

structure DirEntry where
  name : String
  is_dir : Bool
  size : Nat
  mtime : Int
  rel_path : String
deriving DecidableEq, Repr

/-- `items.sort(key=lambda x: x['name'].lower())`'s ordering. -/
def nameLe (a b : DirEntry) : Bool :=
  lexLe (strLower a.name).data (strLower b.name).data

/-- `items.sort(key=lambda x: x['mtime'], reverse=True)`'s ordering. -/
def dateLe (a b : DirEntry) : Bool :=
  decide (b.mtime ≤ a.mtime)

/-- `items.sort(key=lambda x: x['size'], reverse=True)`'s ordering. -/
def sizeLe (a b : DirEntry) : Bool :=
  decide (b.size ≤ a.size)

/-- The sorting step of `api_list` (lines 115-120).  `sort` is the query
parameter; `none` models an absent parameter, which FastAPI defaults to
`'name'` (`Query('name')`).  Any other value leaves the enumeration
order unchanged. -/
def api_list_sort (items : List DirEntry) (sort : Option String) : List DirEntry :=
  let s := sort.getD "name"
  if s = "name" then items.mergeSort nameLe
  else if s = "date" then items.mergeSort dateLe
  else if s = "size" then items.mergeSort sizeLe
  else items

/-! ## Thumbnails (`api_thumb`, lines 124-176)

The filesystem and the collaborators (libmagic, Pillow, ffmpeg) are
oracles fixed per request; `none` in an oracle field models the library
call raising an exception.  The handler is state-passing over the
module-level `thumb_cache` dict (modelled as an association list, most
recent binding first).  `work` counts generation attempts — Pillow
decodes and ffmpeg invocations — so that a cache hit is provably free of
decode/subprocess work. -/

structure ThumbOracles where
  /-- `p.exists()` -/
  pexists : Bool
  /-- `p.is_file()` -/
  isFile : Bool
  /-- `magic.from_file(str(p), mime=True)` -/
  mime : Option String
  /-- JPEG bytes from the Pillow open/thumbnail/convert/save pipeline on
  the file itself; `none` models a raised exception (caught, line 146). -/
  imageThumb : Option (List Nat)
  /-- ffmpeg stdout (`out`); `none` models an exception while spawning
  or communicating (caught, line 165). -/
  ffmpegOut : Option (List Nat)
  /-- JPEG bytes from the Pillow pipeline on the ffmpeg frame; `none`
  models a raised exception (caught by the same handler). -/
  videoThumb : Option (List Nat)
  /-- bytes of `Image.new('RGB', THUMB_SIZE, (40, 40, 40))` saved as
  JPEG — the fixed placeholder (deterministic for the process). -/
  placeholder : List Nat
deriving Repr

/-- `key = f"{root_index}:{path}"` (line 127). -/
def thumbKey (root_index : Int) (path : String) : String :=
  toString root_index ++ ":" ++ path

/-- Outcome of one `api_thumb` call: the HTTP result, the cache after
the call, and the number of generation attempts performed. -/
structure ThumbResult where
  response : Except HErr (List Nat)
  cache : List (String × List Nat)
  work : Nat
deriving Repr

/-- The generation attempt of `api_thumb` (lines 135-166): sniff the
mime type (`None` for a non-file), take the Pillow image branch when the
mime string is truthy and starts with `image`, otherwise the ffmpeg
branch; the first component is the `data` variable after the branch
(`none` = still unset), the second counts decode/subprocess operations
performed. -/
def thumbGen (o : ThumbOracles) : Option (List Nat) × Nat :=
  let mime := if o.isFile then o.mime else none
  let mimeIsImage : Bool :=
    match mime with
    | some m => (m != "") && strStartsWith m "image"
    | none => false
  if o.isFile && mimeIsImage then
    (o.imageThumb, 1)
  else
    match o.ffmpegOut with
    | none => (none, 1)
    | some out => if out.isEmpty then (none, 1) else (o.videoThumb, 2)

/-- `if not data:` placeholder fallback (lines 168-173): Python's `not`
is truthiness, so both an unset `data` and empty bytes fall back. -/
def thumbBytes (o : ThumbOracles) : List Nat :=
  match (thumbGen o).1 with
  | some d => if d.isEmpty then o.placeholder else d
  | none => o.placeholder

/-- `api_thumb(root_index, path)` (lines 124-176). -/
def api_thumb (roots : List String) (root_index : Int) (path : String)
    (o : ThumbOracles) (cache : List (String × List Nat)) : ThumbResult :=
  let key := thumbKey root_index path
  match cache.lookup key with
  | some data => ⟨.ok data, cache, 0⟩
  | none =>
    match normalize_root_and_rel roots root_index path with
    | .error e => ⟨.error e, cache, 0⟩
    | .ok _p =>
      if o.pexists = false then ⟨.error .notFound, cache, 0⟩
      else ⟨.ok (thumbBytes o), (key, thumbBytes o) :: cache, (thumbGen o).2⟩

/-- A concrete oracle: an existing, decodable PNG image whose Pillow
pipeline yields the JPEG bytes `[1, 2, 3]`. -/
def imgOracle : ThumbOracles :=
  ⟨true, true, some "image/png", some [1, 2, 3], none, none, [9]⟩

/-- A concrete oracle for an existing decodable image, used with a
relative path that escapes the configured root. -/
def escOracle : ThumbOracles :=
  ⟨true, true, some "image/png", some [1, 2, 3], none, none, [9]⟩

/-- A concrete oracle for a target that does not exist
(`p.exists()` is false). -/
def missingOracle : ThumbOracles :=
  ⟨false, false, none, none, none, none, [9]⟩

/-! ## Byte-range streaming (`iter_file_range`, lines 179-191, and
`media`, lines 194-225)

A file is its byte list; `f.read(n)` at offset `pos` returns the next
`min n (size - pos)` bytes, i.e. `(file.drop pos).take n`. -/

/-- `f.read(n)` after seeking to `pos`. -/
def readAt (file : List Nat) (pos n : Nat) : List Nat :=
  (file.drop pos).take n

/-- The `while to_read > 0` loop of `iter_file_range` (lines 186-191):
read at most `min chunk_size to_read` bytes, stop on a short (empty)
read, and count every yielded byte against `to_read`.  The loop runs at
most `toRead` iterations (every continuing iteration yields at least one
byte), so structural recursion on a `fuel` initialized to `toRead` is an
exact rendering of the `while` loop. -/
def iterLoopF (file : List Nat) (chunkSize : Nat) : Nat → Nat → Nat → List (List Nat)
  | 0, _, _ => []
  | fuel + 1, pos, toRead =>
    if toRead = 0 then []
    else
      let r := readAt file pos (min chunkSize toRead)
      if r.length = 0 then []
      else r :: iterLoopF file chunkSize fuel (pos + r.length) (toRead - r.length)

/-- The chunk loop with its exact fuel. -/
def iterLoop (file : List Nat) (chunkSize pos toRead : Nat) : List (List Nat) :=
  iterLoopF file chunkSize toRead pos toRead

/-- `iter_file_range(path, start, end, chunk_size)` (lines 179-191):
clamp a missing or overshooting `end` to `size - 1`, seek to `start`,
then run the chunk loop for `end - start + 1` bytes (a non-positive
count yields nothing, as the `while` guard is `to_read > 0`). -/
def iter_file_range (file : List Nat) (start : Int) (endOpt : Option Int)
    (chunkSize : Nat) : List (List Nat) :=
  let size : Int := file.length
  let e : Int :=
    match endOpt with
    | none => size - 1
    | some e => if e ≥ size then size - 1 else e
  iterLoop file chunkSize start.toNat (e - start + 1).toNat

/-- Parsing of `Range: bytes=<start>-<end>` (lines 205-212).  Any
failure — wrong number of `=` or `-` parts, unparsable integer — falls
back to the whole file `(0, size - 1)`; an empty start means `0`, an
empty end means `size - 1`. -/
def parseRange (rangeHeader : String) (size : Int) : Int × Int :=
  match splitStr '=' rangeHeader with
  | [_units, rng] =>
    match splitStr '-' rng with
    | [startS, endS] =>
      let startV := if startS = "" then some (0 : Int) else pyInt? startS
      let endV := if endS = "" then some (size - 1) else pyInt? endS
      match startV, endV with
      | some s, some e => (s, e)
      | _, _ => (0, size - 1)
    | _ => (0, size - 1)
  | _ => (0, size - 1)

/-- An HTTP response of the `media` endpoint: status, the headers the
handler sets explicitly (the content type is passed to
`StreamingResponse` separately and is not modelled), and the lazy body
as the list of yielded chunks. -/
structure MediaResp where
  status : Nat
  headers : List (String × String)
  body : List (List Nat)
deriving DecidableEq, Repr

/-- The Range-serving part of `media` (lines 201-225), after path
resolution and the existence check: dispatch on the `Range` header,
parse it, answer 416 when `start >= size`, otherwise 206 with
`Content-Range`/`Content-Length` built from the *parsed* start and end,
streaming `iter_file_range(p, start, end)`; without a header, stream
the whole file with status 200. -/
def media_stream (file : List Nat) (rangeHeader : Option String) : MediaResp :=
  let size : Int := file.length
  match rangeHeader with
  | some rh =>
    let se := parseRange rh size
    let start := se.1
    let e := se.2
    if start ≥ size then ⟨416, [], []⟩
    else
      ⟨206,
       [("Content-Range", "bytes " ++ toString start ++ "-" ++ toString e ++ "/" ++ toString size),
        ("Accept-Ranges", "bytes"),
        ("Content-Length", toString (e - start + 1))],
       iter_file_range file start (some e) (1 <<< 20)⟩
  | none =>
    ⟨200, [("Accept-Ranges", "bytes")], iter_file_range file 0 (some (size - 1)) (1 <<< 20)⟩

/-- `media(root_index, full_path)` (lines 194-225): resolve the path,
404 unless it exists and is a regular file (existence and the file's
bytes given by oracle), then serve per `media_stream`. -/
def media (roots : List String) (root_index : Int) (full_path : String)
    (pexists isFile : Bool) (file : List Nat) (rangeHeader : Option String) :
    Except HErr MediaResp :=
  match normalize_root_and_rel roots root_index full_path with
  | .error e => .error e
  | .ok _ =>
    if !(pexists && isFile) then .error .notFound
    else .ok (media_stream file rangeHeader)

/-! ## Concurrent thumbnail requests

`api_thumb` is an `async def` sharing the module-level `thumb_cache`
dict with every sibling request, with no lock and no per-key in-flight
marker.  For a video key the handler suspends at
`await proc.communicate()` (line 157) between the cache lookup
(line 128) and the cache store (line 175), so under the event loop each
request executes as two atomic blocks:

* `ready → launched`: run lines 127-156 — look the key up in the cache;
  on a hit finish immediately with the cached bytes, on a miss spawn the
  ffmpeg subprocess and suspend;
* `launched → finished`: run lines 157-176 — take the subprocess
  output, store the produced bytes in the cache, respond.

A schedule is the sequence of request indices the event loop resumes;
`subprocessCount` counts ffmpeg invocations.  All requests target the
same uncached key and the same (deterministic) generation result
`genBytes`. -/

inductive ReqPhase where
  | ready
  | launched
  | finished
deriving DecidableEq, Repr

structure ThumbSys where
  cache : List (String × List Nat)
  subprocessCount : Nat
  phases : List ReqPhase
  results : List (Option (List Nat))
deriving Repr

/-- Resume request `i` for one atomic block. -/
def thumbStep (key : String) (genBytes : List Nat) (s : ThumbSys) (i : Nat) : ThumbSys :=
  match s.phases.get? i with
  | some .ready =>
    match s.cache.lookup key with
    | some d =>
      { s with phases := s.phases.set i .finished, results := s.results.set i (some d) }
    | none =>
      { s with phases := s.phases.set i .launched,
               subprocessCount := s.subprocessCount + 1 }
  | some .launched =>
    { s with phases := s.phases.set i .finished,
             cache := (key, genBytes) :: s.cache,
             results := s.results.set i (some genBytes) }
  | _ => s

/-- Run a schedule of resumptions. -/
def thumbRun (key : String) (genBytes : List Nat) (sched : List Nat) (s : ThumbSys) : ThumbSys :=
  sched.foldl (thumbStep key genBytes) s

/-- `n` fresh concurrent requests over an empty cache. -/
def thumbInit (n : Nat) : ThumbSys :=
  ⟨[], 0, List.replicate n .ready, List.replicate n none⟩

/-! ## Helper lemmas -/

theorem readAt_length (file : List Nat) (pos n : Nat) :
    (readAt file pos n).length = min n (file.length - pos) := by
  simp [readAt, List.length_take, List.length_drop]

theorem iterLoopF_flatten (file : List Nat) (chunkSize : Nat) (hcs : 0 < chunkSize) :
    ∀ (fuel toRead pos : Nat), toRead ≤ fuel → pos + toRead ≤ file.length →
      (iterLoopF file chunkSize fuel pos toRead).flatten = (file.drop pos).take toRead := by
  intro fuel
  induction fuel with
  | zero =>
    intro toRead pos h1 _h2
    have : toRead = 0 := Nat.le_zero.mp h1
    simp [iterLoopF, this]
  | succ n ih =>
    intro toRead pos h1 h2
    by_cases h0 : toRead = 0
    · simp [iterLoopF, h0]
    · have hrlen : (readAt file pos (min chunkSize toRead)).length = min chunkSize toRead := by
        rw [readAt_length]; omega
      have hrpos : 0 < min chunkSize toRead := by omega
      have hne : ¬((readAt file pos (min chunkSize toRead)).length = 0) := by omega
      simp only [iterLoopF, if_neg h0, hrlen]
      rw [if_neg (by omega : ¬(min chunkSize toRead = 0))]
      rw [List.flatten_cons]
      rw [ih (toRead - min chunkSize toRead) (pos + min chunkSize toRead) (by omega) (by omega)]
      have hdd : file.drop (pos + min chunkSize toRead) = (file.drop pos).drop (min chunkSize toRead) := by
        rw [List.drop_drop]
      rw [hdd, readAt]
      rw [← List.take_add]
      congr 1
      omega

theorem iterLoopF_chunk_le (file : List Nat) (chunkSize : Nat) :
    ∀ (fuel toRead pos : Nat) (c : List Nat),
      c ∈ iterLoopF file chunkSize fuel pos toRead → c.length ≤ chunkSize := by
  intro fuel
  induction fuel with
  | zero => intro toRead pos c hc; simp [iterLoopF] at hc
  | succ n ih =>
    intro toRead pos c hc
    by_cases h0 : toRead = 0
    · simp [iterLoopF, h0] at hc
    · simp only [iterLoopF, if_neg h0] at hc
      by_cases hr : (readAt file pos (min chunkSize toRead)).length = 0
      · simp [hr] at hc
      · simp only [if_neg hr, List.mem_cons] at hc
        rcases hc with hc | hc
        · subst hc
          have := readAt_length file pos (min chunkSize toRead)
          omega
        · exact ih _ _ _ hc

theorem iterLoopF_flatten_length_le (file : List Nat) (chunkSize : Nat) :
    ∀ (fuel toRead pos : Nat),
      (iterLoopF file chunkSize fuel pos toRead).flatten.length ≤ toRead := by
  intro fuel
  induction fuel with
  | zero => intro toRead pos; simp [iterLoopF]
  | succ n ih =>
    intro toRead pos
    by_cases h0 : toRead = 0
    · simp [iterLoopF, h0]
    · simp only [iterLoopF, if_neg h0]
      by_cases hr : (readAt file pos (min chunkSize toRead)).length = 0
      · simp [hr]
      · simp only [if_neg hr, List.flatten_cons, List.length_append]
        have h1 := ih (toRead - (readAt file pos (min chunkSize toRead)).length)
          (pos + (readAt file pos (min chunkSize toRead)).length)
        have h2 : (readAt file pos (min chunkSize toRead)).length ≤ toRead := by
          have := readAt_length file pos (min chunkSize toRead)
          omega
        omega

/-- What the body of a 206 response concatenates to: the inclusive span
from `start` to `min end (size-1)`, empty when that span is empty. -/
theorem iter_file_range_flatten (file : List Nat) (start e : Int) (chunkSize : Nat)
    (hcs : 0 < chunkSize) (h0 : 0 ≤ start) :
    (iter_file_range file start (some e) chunkSize).flatten
      = (file.drop start.toNat).take ((min e ((file.length : Int) - 1) - start + 1).toNat) := by
  have hcl : (if e ≥ (file.length : Int) then (file.length : Int) - 1 else e)
      = min e ((file.length : Int) - 1) := by
    split <;> omega
  simp only [iter_file_range, iterLoop, hcl]
  by_cases hz : (min e ((file.length : Int) - 1) - start + 1).toNat = 0
  · rw [hz]; simp [iterLoopF]
  · exact iterLoopF_flatten file chunkSize hcs _ _ _ le_rfl (by omega)

theorem lexLe_total : ∀ as bs : List Char, lexLe as bs = true ∨ lexLe bs as = true := by
  intro as
  induction as with
  | nil => intro bs; left; rfl
  | cons a as ih =>
    intro bs
    cases bs with
    | nil => right; rfl
    | cons b bs =>
      rcases lt_trichotomy a b with h | h | h
      · left; simp [lexLe, h]
      · subst h
        rcases ih bs with h' | h'
        · left; simp [lexLe, lt_irrefl, h']
        · right; simp [lexLe, lt_irrefl, h']
      · right; simp [lexLe, h]

theorem lexLe_trans : ∀ as bs cs : List Char,
    lexLe as bs = true → lexLe bs cs = true → lexLe as cs = true := by
  intro as
  induction as with
  | nil => intro bs cs _ _; rfl
  | cons a as ih =>
    intro bs cs h1 h2
    cases bs with
    | nil => simp [lexLe] at h1
    | cons b bs =>
      cases cs with
      | nil => simp [lexLe] at h2
      | cons c cs =>
        by_cases hab : a < b
        · by_cases hbc : b < c
          · simp [lexLe, lt_trans hab hbc]
          · by_cases hcb : c < b
            · simp [lexLe, hbc, hcb] at h2
            · have : b = c := le_antisymm (not_lt.mp hcb) (not_lt.mp hbc)
              subst this
              simp [lexLe, hab]
        · by_cases hba : b < a
          · simp [lexLe, hab, hba] at h1
          · have : a = b := le_antisymm (not_lt.mp hba) (not_lt.mp hab)
            subst this
            simp only [lexLe, if_neg (lt_irrefl a)] at h1
            by_cases hbc : a < c
            · simp [lexLe, hbc]
            · by_cases hcb : c < a
              · simp [lexLe, hbc, hcb] at h2
              · have : a = c := le_antisymm (not_lt.mp hcb) (not_lt.mp hbc)
                subst this
                simp only [lexLe, if_neg (lt_irrefl a)] at h2 ⊢
                exact ih bs cs h1 h2

theorem pyIndex_eq_none_iff (l : List String) (i : Int) :
    pyIndex l i = none ↔ ((l.length : Int) ≤ i ∨ i < -(l.length : Int)) := by
  unfold pyIndex
  by_cases h0 : 0 ≤ i
  · rw [if_pos h0, List.get?_eq_none]
    omega
  · rw [if_neg h0]
    by_cases hj : 0 ≤ (l.length : Int) + i
    · rw [if_pos hj, List.get?_eq_none]
      constructor
      · intro h; omega
      · intro h; omega
    · rw [if_neg hj]
      constructor
      · intro _; omega
      · intro _; rfl

instance : DecidableEq (Except HErr (List String)) := fun a b =>
  match a, b with
  | .ok x, .ok y => if h : x = y then .isTrue (by rw [h]) else .isFalse (by simp [h])
  | .error x, .error y => if h : x = y then .isTrue (by rw [h]) else .isFalse (by simp [h])
  | .ok _, .error _ => .isFalse (by simp)
  | .error _, .ok _ => .isFalse (by simp)

theorem normalize_error_kinds (roots : List String) (i : Int) (rel : String) (e : HErr)
    (h : normalize_root_and_rel roots i rel = .error e) :
    e = .invalidRoot ∨ e = .pathEscape := by
  unfold normalize_root_and_rel at h
  cases hpi : pyIndex roots i with
  | none => rw [hpi] at h; left; exact ((Except.error.injEq _ _).mp h).symm
  | some rootStr =>
    rw [hpi] at h
    simp only at h
    split at h
    · exact absurd h (by simp)
    · right; exact ((Except.error.injEq _ _).mp h).symm

/-! ## Claims -/

/-- C1 — the code refutes the claim: with the configured root
`/data/root`, the relative path `../root2/secret.txt` canonicalizes to
`/data/root2/secret.txt`, a sibling of the root that merely shares its
string prefix.  `normalize_root_and_rel` accepts it (the check is a bare
`str.startswith`), although it lies outside the root's directory
subtree — contradicting both the directory-boundary containment the
claim states and the code's own `# Disallow .. escaping` comment. -/
theorem c1_escape_accepted :
    normalize_root_and_rel ["/data/root"] 0 "../root2/secret.txt"
      = .ok ["data", "root2", "secret.txt"]
    ∧ inRootSubtree (resolvePath (splitPath "/data/root")) ["data", "root2", "secret.txt"]
      = false :=
  ⟨rfl, rfl⟩

/-- C4 counterexample: `root_index = -1` is outside `[0, 2)`, yet
`normalize_root_and_rel` does not fail with `invalidRoot` — Python's
negative indexing makes `ROOT_DIRS[-1]` the last configured root, and
the request resolves against it. -/
theorem c4_counterexample :
    normalize_root_and_rel ["/a", "/b"] (-1) "x" = .ok ["b", "x"]
    ∧ normalize_root_and_rel ["/a", "/b"] (-1) "x" ≠ .error .invalidRoot := by
  refine ⟨rfl, ?_⟩
  decide

/-- C4 as amended: `resolve` fails with `invalidRoot` exactly when the
root index is past the end (`rootIndex ≥ n`) or past Python's negative
range (`rootIndex < -n`); a negative index in `[-n, -1]` selects a root
from the end instead of failing, for every relative path. -/
theorem c4_invalid_root_iff (roots : List String) (i : Int) (rel : String) :
    normalize_root_and_rel roots i rel = .error .invalidRoot
      ↔ ((roots.length : Int) ≤ i ∨ i < -(roots.length : Int)) := by
  constructor
  · intro h
    rw [← pyIndex_eq_none_iff]
    cases hpi : pyIndex roots i with
    | none => rfl
    | some rootStr =>
      unfold normalize_root_and_rel at h
      rw [hpi] at h
      simp only at h
      split at h
      · simp at h
      · simp at h
  · intro h
    have hpi : pyIndex roots i = none := (pyIndex_eq_none_iff roots i).mpr h
    unfold normalize_root_and_rel
    rw [hpi]

/-- C9 — the code refutes the single-flight claim: two concurrent
requests for the same uncached key, interleaved so that both pass the
cache lookup before either stores (schedule `[0, 1, 0, 1]`, which the
`await` between lookup and store permits), spawn two ffmpeg
subprocesses; only fully serialized execution (`[0, 0, 1, 1]`) spawns
one.  Both callers do receive the generated bytes. -/
theorem c9_stampede :
    (thumbRun "0:v.mp4" [9, 9] [0, 1, 0, 1] (thumbInit 2)).subprocessCount = 2
    ∧ (thumbRun "0:v.mp4" [9, 9] [0, 1, 0, 1] (thumbInit 2)).results
        = [some [9, 9], some [9, 9]]
    ∧ (thumbRun "0:v.mp4" [9, 9] [0, 0, 1, 1] (thumbInit 2)).subprocessCount = 1 :=
  ⟨rfl, rfl, rfl⟩

/-- C6: whenever the parsed Range start is at or beyond the file size,
the stream operation answers 416 with no headers and an empty body. -/
theorem c6_range_start_beyond_size (file : List Nat) (rh : String) (start e : Int)
    (hp : parseRange rh (file.length : Int) = (start, e))
    (hs : (file.length : Int) ≤ start) :
    media_stream file (some rh) = ⟨416, [], []⟩ := by
  simp only [media_stream, hp]
  rw [if_pos hs]

/-- Witness for C6 at the spec's scenario: a 1000-byte file and
`Range: bytes=1000-1999` yield 416 with empty body. -/
theorem c6_range_start_beyond_size_witness :
    parseRange "bytes=1000-1999" ((List.replicate 1000 (7:Nat)).length : Int) = (1000, 1999)
    ∧ ((List.replicate 1000 (7:Nat)).length : Int) ≤ 1000
    ∧ media_stream (List.replicate 1000 (7:Nat)) (some "bytes=1000-1999") = ⟨416, [], []⟩ :=
  ⟨rfl, by simp only [List.length_replicate]; norm_num,
   c6_range_start_beyond_size (List.replicate 1000 7) "bytes=1000-1999" 1000 1999 rfl
     (by simp only [List.length_replicate]; norm_num)⟩

/-- C2 counterexample: for a 10-byte file and `Range: bytes=0-99`
(`start < S`, overshooting end), the code does *not* clamp the end in
the headers: it answers `Content-Range: bytes 0-99/10` and
`Content-Length: 100`, not the claimed `bytes 0-9/10` / `10`. -/
theorem c2_counterexample :
    (media_stream (List.replicate 10 (7:Nat)) (some "bytes=0-99")).status = 206
    ∧ (media_stream (List.replicate 10 (7:Nat)) (some "bytes=0-99")).headers
        = [("Content-Range", "bytes 0-99/10"), ("Accept-Ranges", "bytes"),
           ("Content-Length", "100")]
    ∧ (media_stream (List.replicate 10 (7:Nat)) (some "bytes=0-99")).headers
        ≠ [("Content-Range", "bytes 0-9/10"), ("Accept-Ranges", "bytes"),
           ("Content-Length", "10")] := by
  refine ⟨rfl, rfl, ?_⟩
  intro h
  rw [show (media_stream (List.replicate 10 (7:Nat)) (some "bytes=0-99")).headers
        = [("Content-Range", "bytes 0-99/10"), ("Accept-Ranges", "bytes"),
           ("Content-Length", "100")] from rfl] at h
  simp at h

/-- C2 as amended: for a parsed range with `start < S` the response is
206, but `Content-Range` and `Content-Length` are computed from the
*requested* end without clamping (`bytes {start}-{end}/{S}` and
`end-start+1`); only the body stream clamps, concatenating to exactly
the byte span `[start, min end (S-1)]`.  (For a non-overshooting range
such as `bytes=0-99` on a 1000-byte file this agrees with the claim's
scenario.) -/
theorem c2_unclamped_headers (file : List Nat) (rh : String) (start e : Int)
    (hp : parseRange rh (file.length : Int) = (start, e))
    (h0 : 0 ≤ start) (hs : start < (file.length : Int)) :
    media_stream file (some rh)
      = ⟨206,
         [("Content-Range", "bytes " ++ toString start ++ "-" ++ toString e ++ "/"
             ++ toString ((file.length : Int))),
          ("Accept-Ranges", "bytes"),
          ("Content-Length", toString (e - start + 1))],
         iter_file_range file start (some e) (1 <<< 20)⟩
    ∧ (iter_file_range file start (some e) (1 <<< 20)).flatten
        = (file.drop start.toNat).take ((min e ((file.length : Int) - 1) - start + 1).toNat) := by
  constructor
  · simp only [media_stream, hp]
    rw [if_neg (not_le.mpr hs)]
  · exact iter_file_range_flatten file start e _ (by decide) h0

/-- Witness for C2 at the spec's scenario: 1000-byte file,
`Range: bytes=0-99`. -/
theorem c2_unclamped_headers_witness :
    parseRange "bytes=0-99" ((List.replicate 1000 (7:Nat)).length : Int) = (0, 99)
    ∧ (0 : Int) ≤ 0
    ∧ (0 : Int) < ((List.replicate 1000 (7:Nat)).length : Int)
    ∧ (media_stream (List.replicate 1000 (7:Nat)) (some "bytes=0-99")
        = ⟨206,
           [("Content-Range", "bytes " ++ toString (0:Int) ++ "-" ++ toString (99:Int) ++ "/"
               ++ toString (((List.replicate 1000 (7:Nat)).length : Int))),
            ("Accept-Ranges", "bytes"),
            ("Content-Length", toString ((99:Int) - 0 + 1))],
           iter_file_range (List.replicate 1000 (7:Nat)) 0 (some 99) (1 <<< 20)⟩
       ∧ (iter_file_range (List.replicate 1000 (7:Nat)) 0 (some 99) (1 <<< 20)).flatten
           = ((List.replicate 1000 (7:Nat)).drop (0:Int).toNat).take
               ((min 99 (((List.replicate 1000 (7:Nat)).length : Int) - 1) - 0 + 1).toNat)) :=
  ⟨rfl, le_refl 0, by simp only [List.length_replicate]; norm_num,
   c2_unclamped_headers (List.replicate 1000 7) "bytes=0-99" 0 99 rfl (le_refl 0)
     (by simp only [List.length_replicate]; norm_num)⟩

/-- C10: a parsed range with `start < S` but `end < start` (e.g.
`bytes=500-100`) is neither rejected nor normalized: status is still
206, `Content-Length` is the zero-or-negative `end - start + 1`, and
the lazy body yields no bytes at all. -/
theorem c10_inverted_range (file : List Nat) (rh : String) (start e : Int)
    (hp : parseRange rh (file.length : Int) = (start, e))
    (h0 : 0 ≤ start) (hs : start < (file.length : Int)) (he : e < start) :
    media_stream file (some rh)
      = ⟨206,
         [("Content-Range", "bytes " ++ toString start ++ "-" ++ toString e ++ "/"
             ++ toString ((file.length : Int))),
          ("Accept-Ranges", "bytes"),
          ("Content-Length", toString (e - start + 1))],
         iter_file_range file start (some e) (1 <<< 20)⟩
    ∧ e - start + 1 ≤ 0
    ∧ (iter_file_range file start (some e) (1 <<< 20)).flatten = [] := by
  refine ⟨?_, by omega, ?_⟩
  · simp only [media_stream, hp]
    rw [if_neg (not_le.mpr hs)]
  · rw [iter_file_range_flatten file start e _ (by decide) h0]
    have hz : (min e ((file.length : Int) - 1) - start + 1).toNat = 0 := by omega
    rw [hz]
    simp

/-- Witness for C10: a 501-byte file and `Range: bytes=500-100` give a
206 whose `Content-Length` is `-399` and whose body is empty. -/
theorem c10_inverted_range_witness :
    parseRange "bytes=500-100" ((List.replicate 501 (7:Nat)).length : Int) = (500, 100)
    ∧ (0 : Int) ≤ 500
    ∧ (500 : Int) < ((List.replicate 501 (7:Nat)).length : Int)
    ∧ (100 : Int) < 500
    ∧ (media_stream (List.replicate 501 (7:Nat)) (some "bytes=500-100")
        = ⟨206,
           [("Content-Range", "bytes " ++ toString (500:Int) ++ "-" ++ toString (100:Int) ++ "/"
               ++ toString (((List.replicate 501 (7:Nat)).length : Int))),
            ("Accept-Ranges", "bytes"),
            ("Content-Length", toString ((100:Int) - 500 + 1))],
           iter_file_range (List.replicate 501 (7:Nat)) 500 (some 100) (1 <<< 20)⟩
       ∧ (100:Int) - 500 + 1 ≤ 0
       ∧ (iter_file_range (List.replicate 501 (7:Nat)) 500 (some 100) (1 <<< 20)).flatten = []) :=
  ⟨rfl, by decide, by simp only [List.length_replicate]; norm_num, by decide,
   c10_inverted_range (List.replicate 501 7) "bytes=500-100" 500 100 rfl (by decide)
     (by simp only [List.length_replicate]; norm_num) (by decide)⟩
/-- C5: for `0 ≤ start ≤ end < size`, the chunk sequence of
`iter_file_range` concatenates to exactly the inclusive byte span
`[start, end]` of the file — exactly `end - start + 1` bytes — and every
chunk is bounded by the chunk size (the loop requests at most
`min(chunk_size, to_read)` per read, so it can never exceed the computed
byte count). -/
theorem c5_iter_file_range_exact (file : List Nat) (start e chunkSize : Nat)
    (h1 : start ≤ e) (h2 : e < file.length) (h3 : 0 < chunkSize) :
    (iter_file_range file (start : Int) (some (e : Int)) chunkSize).flatten
        = (file.drop start).take (e - start + 1)
    ∧ (iter_file_range file (start : Int) (some (e : Int)) chunkSize).flatten.length
        = e - start + 1
    ∧ ∀ c ∈ iter_file_range file (start : Int) (some (e : Int)) chunkSize,
        c.length ≤ chunkSize := by
  have hj := iter_file_range_flatten file start e chunkSize h3 (by positivity)
  have hmin : min (e : Int) ((file.length : Int) - 1) = (e : Int) := by omega
  have htn : ((e : Int) - (start : Int) + 1).toNat = e - start + 1 := by omega
  have hpn : ((start : Int)).toNat = start := by omega
  rw [hmin, htn, hpn] at hj
  refine ⟨hj, ?_, ?_⟩
  · rw [hj]
    simp only [List.length_take, List.length_drop]
    omega
  · intro c hc
    simp only [iter_file_range, iterLoop] at hc
    exact iterLoopF_chunk_le file chunkSize _ _ _ c hc

/-- Witness for C5: the file `[3, 5, 7, 9]`, range `[1, 2]`, chunk size
`1` — the body is `[5, 7]` in two one-byte chunks. -/
theorem c5_iter_file_range_exact_witness :
    (1 : Nat) ≤ 2 ∧ (2 : Nat) < ([3, 5, 7, 9] : List Nat).length ∧ (0 : Nat) < 1
    ∧ ((iter_file_range [3, 5, 7, 9] ((1 : Nat) : Int) (some ((2 : Nat) : Int)) 1).flatten
          = (([3, 5, 7, 9] : List Nat).drop 1).take (2 - 1 + 1)
       ∧ (iter_file_range [3, 5, 7, 9] ((1 : Nat) : Int) (some ((2 : Nat) : Int)) 1).flatten.length
          = 2 - 1 + 1
       ∧ ∀ c ∈ iter_file_range [3, 5, 7, 9] ((1 : Nat) : Int) (some ((2 : Nat) : Int)) 1,
          c.length ≤ 1) :=
  ⟨by decide, by decide, by decide,
   c5_iter_file_range_exact [3, 5, 7, 9] 1 2 1 (by decide) (by decide) (by decide)⟩

/-- C8: the listing order is the deterministic function `api_list_sort`
of the entries and the sort key: an absent key defaults to `name`;
`name` sorts ascending by the case-folded name (lexicographic by code
point), `date` sorts descending by modification time, `size` sorts
descending by byte size — each a permutation of the input entries. -/
theorem c8_sort_orderings (items : List DirEntry) :
    api_list_sort items none = api_list_sort items (some "name")
    ∧ (api_list_sort items (some "name")).Perm items
    ∧ (api_list_sort items (some "name")).Pairwise (fun a b => nameLe a b = true)
    ∧ (api_list_sort items (some "date")).Perm items
    ∧ (api_list_sort items (some "date")).Pairwise (fun a b => b.mtime ≤ a.mtime)
    ∧ (api_list_sort items (some "size")).Perm items
    ∧ (api_list_sort items (some "size")).Pairwise (fun a b => b.size ≤ a.size) := by
  have hname : api_list_sort items (some "name") = items.mergeSort nameLe := rfl
  have hdate : api_list_sort items (some "date") = items.mergeSort dateLe := rfl
  have hsize : api_list_sort items (some "size") = items.mergeSort sizeLe := rfl
  refine ⟨rfl, ?_, ?_, ?_, ?_, ?_, ?_⟩
  · rw [hname]; exact List.mergeSort_perm items nameLe
  · rw [hname]
    exact @List.sorted_mergeSort _ nameLe
      (fun a b c h1 h2 => by
        simp only [nameLe] at *
        exact lexLe_trans _ _ _ h1 h2)
      (fun a b => by
        simp only [nameLe]
        rcases lexLe_total (strLower a.name).data (strLower b.name).data with h | h <;>
          simp [h]) items
  · rw [hdate]; exact List.mergeSort_perm items dateLe
  · rw [hdate]
    have := @List.sorted_mergeSort _ dateLe
      (fun a b c h1 h2 => by
        simp only [dateLe, decide_eq_true_eq] at *
        omega)
      (fun a b => by
        simp only [dateLe]
        rcases le_total b.mtime a.mtime with h | h <;> simp [h]) items
    exact this.imp (fun h => by simpa [dateLe] using h)
  · rw [hsize]; exact List.mergeSort_perm items sizeLe
  · rw [hsize]
    have := @List.sorted_mergeSort _ sizeLe
      (fun a b c h1 h2 => by
        simp only [sizeLe, decide_eq_true_eq] at *
        omega)
      (fun a b => by
        simp only [sizeLe]
        rcases le_total b.size a.size with h | h <;> simp [h]) items
    exact this.imp (fun h => by simpa [sizeLe] using h)

/-- C7: if a `getThumbnail` call returns bytes `b`, then `b` is stored
in the returned cache under the request's key (the store happens before
the response is returned), and an immediately repeated call with that
cache is a pure cache hit: it returns the identical bytes, leaves the
cache unchanged, and performs zero decode/subprocess work. -/
theorem c7_cache_hit_idempotent (roots : List String) (root_index : Int) (path : String)
    (o : ThumbOracles) (cache : List (String × List Nat)) (b : List Nat)
    (h : (api_thumb roots root_index path o cache).response = .ok b) :
    ((api_thumb roots root_index path o cache).cache).lookup (thumbKey root_index path)
        = some b
    ∧ api_thumb roots root_index path o ((api_thumb roots root_index path o cache).cache)
        = ⟨.ok b, (api_thumb roots root_index path o cache).cache, 0⟩ := by
  cases hl : cache.lookup (thumbKey root_index path) with
  | some d =>
    have hr : api_thumb roots root_index path o cache = ⟨.ok d, cache, 0⟩ := by
      simp [api_thumb, hl]
    rw [hr] at h ⊢
    have hb : d = b := by simpa using h
    subst hb
    exact ⟨hl, by simp [api_thumb, hl]⟩
  | none =>
    cases hn : normalize_root_and_rel roots root_index path with
    | error e =>
      have hr : api_thumb roots root_index path o cache = ⟨.error e, cache, 0⟩ := by
        simp [api_thumb, hl, hn]
      rw [hr] at h
      simp at h
    | ok q =>
      cases hx : o.pexists with
      | false =>
        have hr : api_thumb roots root_index path o cache
            = ⟨.error .notFound, cache, 0⟩ := by
          simp [api_thumb, hl, hn, hx]
        rw [hr] at h
        simp at h
      | true =>
        have hr : api_thumb roots root_index path o cache
            = ⟨.ok (thumbBytes o), (thumbKey root_index path, thumbBytes o) :: cache,
               (thumbGen o).2⟩ := by
          simp [api_thumb, hl, hn, hx]
        rw [hr] at h ⊢
        have hb : thumbBytes o = b := by simpa using h
        subst hb
        constructor
        · simp [List.lookup]
        · simp [api_thumb, List.lookup]

/-- Witness for C7: a decodable image at key `0:a.png`; the first call
produces `[1, 2, 3]`, caches it, and the repeated call is a free hit. -/
theorem c7_cache_hit_idempotent_witness :
    (api_thumb ["/r"] 0 "a.png" imgOracle []).response = .ok [1, 2, 3]
    ∧ (((api_thumb ["/r"] 0 "a.png" imgOracle []).cache).lookup (thumbKey 0 "a.png")
          = some [1, 2, 3]
       ∧ api_thumb ["/r"] 0 "a.png" imgOracle ((api_thumb ["/r"] 0 "a.png" imgOracle []).cache)
          = ⟨.ok [1, 2, 3], (api_thumb ["/r"] 0 "a.png" imgOracle []).cache, 0⟩) :=
  ⟨rfl, c7_cache_hit_idempotent ["/r"] 0 "a.png" imgOracle [] [1, 2, 3] rfl⟩

/-- C3 counterexample: the claim promises that `NotFound` is the only
externally visible error, but an uncached request whose relative path
escapes the root fails with `pathEscape` (HTTP 400) even though the
target exists — neither `NotFound` nor JPEG bytes. -/
theorem c3_counterexample :
    (api_thumb ["/data/root"] 0 "../x" escOracle []).response = .error .pathEscape
    ∧ escOracle.pexists = true
    ∧ HErr.pathEscape ≠ HErr.notFound :=
  ⟨rfl, rfl, by decide⟩

/-- C3 as amended: on a cache miss `getThumbnail` may fail with the
path-resolution errors `invalidRoot` or `pathEscape`; apart from those,
it fails with `notFound` *exactly* when the resolution succeeds and the
target does not exist, and in every other case — cache hit, or existing
target with any oracle outcome (decode errors, subprocess failures,
corrupt output, placeholder fallback) — it returns bytes. -/
theorem c3_error_characterization (roots : List String) (root_index : Int) (path : String)
    (o : ThumbOracles) (cache : List (String × List Nat)) :
    ((api_thumb roots root_index path o cache).response = .error .notFound
       ↔ cache.lookup (thumbKey root_index path) = none
         ∧ (normalize_root_and_rel roots root_index path).isOk = true
         ∧ o.pexists = false)
    ∧ (∀ e : HErr, (api_thumb roots root_index path o cache).response = .error e →
         cache.lookup (thumbKey root_index path) = none
         ∧ (e = .notFound ∧ o.pexists = false
            ∨ normalize_root_and_rel roots root_index path = .error e
              ∧ (e = .invalidRoot ∨ e = .pathEscape)))
    ∧ (∀ d : List Nat, cache.lookup (thumbKey root_index path) = some d →
         (api_thumb roots root_index path o cache).response = .ok d)
    ∧ (∀ q : List String, cache.lookup (thumbKey root_index path) = none →
         normalize_root_and_rel roots root_index path = .ok q →
         o.pexists = true →
         (api_thumb roots root_index path o cache).response = .ok (thumbBytes o)) := by
  refine ⟨⟨?_, ?_⟩, ?_, ?_, ?_⟩
  · -- notFound implies: miss, successful resolution, absent target
    intro h
    cases hl : cache.lookup (thumbKey root_index path) with
    | some d =>
      have hr : api_thumb roots root_index path o cache = ⟨.ok d, cache, 0⟩ := by
        simp [api_thumb, hl]
      rw [hr] at h
      simp at h
    | none =>
      cases hn : normalize_root_and_rel roots root_index path with
      | error e' =>
        have hr : api_thumb roots root_index path o cache = ⟨.error e', cache, 0⟩ := by
          simp [api_thumb, hl, hn]
        rw [hr] at h
        have he : e' = HErr.notFound := by simpa using h
        rcases normalize_error_kinds roots root_index path e' hn with hk | hk <;>
          simp [hk] at he
      | ok q =>
        cases hx : o.pexists with
        | true =>
          have hr : api_thumb roots root_index path o cache
              = ⟨.ok (thumbBytes o), (thumbKey root_index path, thumbBytes o) :: cache,
                 (thumbGen o).2⟩ := by
            simp [api_thumb, hl, hn, hx]
          rw [hr] at h
          simp at h
        | false =>
          exact ⟨rfl, rfl, rfl⟩
  · -- miss, successful resolution, absent target imply notFound
    rintro ⟨hl, hok, hx⟩
    cases hn : normalize_root_and_rel roots root_index path with
    | error e' => rw [hn] at hok; simp [Except.isOk, Except.toBool] at hok
    | ok q =>
      have hr : api_thumb roots root_index path o cache = ⟨.error .notFound, cache, 0⟩ := by
        simp [api_thumb, hl, hn, hx]
      rw [hr]
  · -- any error happens on a miss and is notFound or a resolution error
    intro e h
    cases hl : cache.lookup (thumbKey root_index path) with
    | some d =>
      have hr : api_thumb roots root_index path o cache = ⟨.ok d, cache, 0⟩ := by
        simp [api_thumb, hl]
      rw [hr] at h
      simp at h
    | none =>
      refine ⟨rfl, ?_⟩
      cases hn : normalize_root_and_rel roots root_index path with
      | error e' =>
        have hr : api_thumb roots root_index path o cache = ⟨.error e', cache, 0⟩ := by
          simp [api_thumb, hl, hn]
        rw [hr] at h
        have he : e' = e := by simpa using h
        subst he
        exact Or.inr ⟨rfl, normalize_error_kinds roots root_index path e' hn⟩
      | ok q =>
        cases hx : o.pexists with
        | false =>
          have hr : api_thumb roots root_index path o cache
              = ⟨.error .notFound, cache, 0⟩ := by
            simp [api_thumb, hl, hn, hx]
          rw [hr] at h
          have he : HErr.notFound = e := by simpa using h
          exact Or.inl ⟨he.symm, rfl⟩
        | true =>
          have hr : api_thumb roots root_index path o cache
              = ⟨.ok (thumbBytes o), (thumbKey root_index path, thumbBytes o) :: cache,
                 (thumbGen o).2⟩ := by
            simp [api_thumb, hl, hn, hx]
          rw [hr] at h
          simp at h
  · -- a cache hit returns the stored bytes
    intro d hl
    simp [api_thumb, hl]
  · -- miss, successful resolution, existing target: bytes are returned
    intro q hl hn hx
    simp [api_thumb, hl, hn, hx]

/-- Witness for C3: an absent target at key `0:a.png` (resolution
succeeds, `p.exists()` false) fails with `notFound`, and the iff of the
characterization applies to it; the escaping request of the
counterexample exercises the error direction with `pathEscape`. -/
theorem c3_error_characterization_witness :
    (api_thumb ["/r"] 0 "a.png" missingOracle []).response = .error .notFound
    ∧ (([] : List (String × List Nat)).lookup (thumbKey 0 "a.png") = none
       ∧ (normalize_root_and_rel ["/r"] 0 "a.png").isOk = true
       ∧ missingOracle.pexists = false)
    ∧ (([] : List (String × List Nat)).lookup (thumbKey 0 "../x") = none
       ∧ (HErr.pathEscape = .notFound ∧ escOracle.pexists = false
          ∨ normalize_root_and_rel ["/data/root"] 0 "../x" = .error .pathEscape
            ∧ (HErr.pathEscape = .invalidRoot ∨ HErr.pathEscape = .pathEscape))) :=
  ⟨rfl,
   (c3_error_characterization ["/r"] 0 "a.png" missingOracle []).1.mp rfl,
   (c3_error_characterization ["/data/root"] 0 "../x" escOracle []).2.1 .pathEscape rfl⟩

end Webserv
